import Mathlib

/-!
Shallow embedding of the image codec and raster compositor of the
`file-explorer` repository (src/draw.rs and src/png.rs), together with
proofs about the embedded operations.

Conventions:
* Machine integers (`u8`, `u16`, `u32`, `usize`) are modelled as `Nat`;
  wrapping arithmetic is made explicit with `% 256` / `% U32`, and Rust's
  saturating subtraction on unsigned integers coincides with truncated
  `Nat` subtraction.
* The destination framebuffer handed out by `BitmapData.into_slice` is
  modelled as a total function `Nat → Nat` from flat pixel index to pixel
  value; the slice produced by `into_slice` (absent from `src/`, but
  `window.rs` builds the same view with `slice::from_raw_parts_mut(ptr,
  bitmap_memory_size / 4)` and `bitmap_memory_size = width * height * 4`)
  has exactly `bitmap_width * bitmap_height` elements, so a write is
  in bounds exactly when its flat index is `< W * H`.
* `for` loops become structural recursion on the iteration count.
* Fallible code returns `Except Error α`; a `&mut` cursor becomes an
  explicit state value threaded through results.
-/

set_option maxRecDepth 20000

namespace FileExplorer

/-- Wrap-around modulus of Rust's `u32` arithmetic. -/
def U32 : Nat := 4294967296

/-- The destination pixel buffer: a total map from flat index to pixel value. -/
abbrev Mem := Nat → Nat

/-- Write one pixel of the buffer (a single slice store `mem[i] = v`). -/
def store (mem : Mem) (i v : Nat) : Mem :=
  fun j => if j = i then v else mem j

/-- Texture from main.rs: an RGBA bitmap (packed 32-bit pixels) plus its size. -/
structure Texture where
  bitmap : List Nat
  width : Nat
  height : Nat

namespace Draw

/-! ### draw.rs -/

/-- Body of `draw_background`'s inner loop: iterates `cnt` columns starting
at column `x` of row `y`, storing the two-channel gradient value. -/
def draw_background_row (W x_offset y_offset y : Nat) (x : Nat) : Nat → Mem → Mem
  | 0, mem => mem
  | cnt + 1, mem =>
    draw_background_row W x_offset y_offset y (x + 1) cnt
      (store mem (y * W + x)
        (((x + x_offset) &&& 0xFF) ||| (((y + y_offset) &&& 0xFF) <<< 8)))

/-- Outer loop of `draw_background`: iterates `cnt` rows starting at row `y`. -/
def draw_background_rows (W x_offset y_offset : Nat) (y : Nat) : Nat → Mem → Mem
  | 0, mem => mem
  | cnt + 1, mem =>
    draw_background_rows W x_offset y_offset (y + 1) cnt
      (draw_background_row W x_offset y_offset y 0 W mem)

/-- Embeds `draw_background` of draw.rs: fills every pixel of the
`W × H` buffer with `((x+x_offset) & 0xFF) | (((y+y_offset) & 0xFF) << 8)`. -/
def draw_background (W H : Nat) (mem : Mem) (x_offset y_offset : Nat) : Mem :=
  draw_background_rows W x_offset y_offset 0 H mem

/-- Inner loop of `draw_rectangle`: fills `cnt` pixels of row `y` starting at
column `x` with `color`. -/
def draw_rectangle_row (W y color : Nat) (x : Nat) : Nat → Mem → Mem
  | 0, mem => mem
  | cnt + 1, mem =>
    draw_rectangle_row W y color (x + 1) cnt (store mem (y * W + x) color)

/-- Outer loop of `draw_rectangle`: fills `cnt` rows starting at row `y`,
each over `xcnt` columns starting at `pos_x`. -/
def draw_rectangle_rows (W pos_x xcnt color : Nat) (y : Nat) : Nat → Mem → Mem
  | 0, mem => mem
  | cnt + 1, mem =>
    draw_rectangle_rows W pos_x xcnt color (y + 1) cnt
      (draw_rectangle_row W y color pos_x xcnt mem)

/-- Embeds `draw_rectangle` of draw.rs. The Rust ranges
`pos_y..(pos_y+height).min(H)` and `pos_x..(pos_x+width).min(W)` become a
start index plus an iteration count `min (start + extent) bound - start`. -/
def draw_rectangle (W H : Nat) (mem : Mem) (pos_x pos_y width height color : Nat) : Mem :=
  draw_rectangle_rows W pos_x (min (pos_x + width) W - pos_x) color
    pos_y (min (pos_y + height) H - pos_y) mem

/-- Embeds `lerp` of draw.rs. The Rust function computes in `f32`; it is
modelled over `ℚ`, which agrees with `f32` on every computation the claims
touch (all quantities involved are integers in `[0, 255]` and the blend
weights are exactly `0` and `1`, for which each `f32` operation is exact). -/
def lerp (v0 v1 t : ℚ) : ℚ := v0 + t * (v1 - v0)

/-- Body of `draw_texture`'s inner loop for one destination pixel: unpacks
alpha and the six channels, lerps R, G and B, and repacks. The Rust
`as u32` cast of a (here always nonnegative) `f32` truncates toward zero,
i.e. takes the floor. -/
def blend_pixel (pixel bitmap_pixel : Nat) : Nat :=
  let alpha : ℚ := (((bitmap_pixel >>> 24) &&& 0xFF : Nat) : ℚ) / 255
  let background_r : ℚ := (((pixel >>> 16) &&& 0xFF : Nat) : ℚ)
  let background_g : ℚ := (((pixel >>> 8) &&& 0xFF : Nat) : ℚ)
  let background_b : ℚ := ((pixel &&& 0xFF : Nat) : ℚ)
  let foreground_r : ℚ := (((bitmap_pixel >>> 16) &&& 0xFF : Nat) : ℚ)
  let foreground_g : ℚ := (((bitmap_pixel >>> 8) &&& 0xFF : Nat) : ℚ)
  let foreground_b : ℚ := ((bitmap_pixel &&& 0xFF : Nat) : ℚ)
  let r : Nat := (Rat.floor (lerp background_r foreground_r alpha)).toNat
  let g : Nat := (Rat.floor (lerp background_g foreground_g alpha)).toNat
  let b : Nat := (Rat.floor (lerp background_b foreground_b alpha)).toNat
  (r <<< 16) ||| (g <<< 8) ||| b

/-- Inner loop of `draw_texture`: blits `cnt` texture pixels of texture row
`tex_y` into destination row `y`, starting at destination column `x` and
texture column `tex_x`. -/
def draw_texture_row (W : Nat) (texture : Texture) (y tex_y : Nat) (x tex_x : Nat) :
    Nat → Mem → Mem
  | 0, mem => mem
  | cnt + 1, mem =>
    draw_texture_row W texture y tex_y (x + 1) (tex_x + 1) cnt
      (store mem (y * W + x)
        (blend_pixel (mem (y * W + x))
          (texture.bitmap.getD (tex_y * texture.width + tex_x) 0)))

/-- Outer loop of `draw_texture`: blits `cnt` texture rows. -/
def draw_texture_rows (W : Nat) (texture : Texture) (pos_x xcnt : Nat) (y tex_y : Nat) :
    Nat → Mem → Mem
  | 0, mem => mem
  | cnt + 1, mem =>
    draw_texture_rows W texture pos_x xcnt (y + 1) (tex_y + 1) cnt
      (draw_texture_row W texture y tex_y pos_x 0 xcnt mem)

/-- Embeds `draw_texture` of draw.rs, with the same clipped ranges as
`draw_rectangle` and `enumerate`d texture coordinates. -/
def draw_texture (W H : Nat) (mem : Mem) (texture : Texture) (pos_x pos_y : Nat) : Mem :=
  draw_texture_rows W texture pos_x (min (pos_x + texture.width) W - pos_x)
    pos_y 0 (min (pos_y + texture.height) H - pos_y) mem

/-- The fixed 8-entry palette of `find_closest_palette_color`. -/
def palette : List Nat :=
  [0x000000, 0xff0000, 0x00ff00, 0xffff00, 0x0000ff, 0xff00ff, 0x00ffff, 0xffffff]

/-- Distance computation of `find_closest_palette_color`'s loop body: the
per-mask differences are Rust `u32::saturating_sub` on the masked (still
shifted-in-place) channel values, i.e. truncated `Nat` subtraction. -/
def color_distance (pixel palette_color : Nat) : Nat :=
  let red_diff := (pixel &&& 0xff0000) - (palette_color &&& 0xff0000)
  let green_diff := (pixel &&& 0x00ff00) - (palette_color &&& 0x00ff00)
  let blue_diff := (pixel &&& 0x0000ff) - (palette_color &&& 0x0000ff)
  red_diff * red_diff + green_diff * green_diff + blue_diff * blue_diff

/-- Embeds `find_closest_palette_color` of draw.rs: the two mutable loop
variables `minimum_distance` and `nearest_color` become a `foldl` over the
palette with a pair accumulator, started at `(255*255*3 + 1, 0)`. -/
def find_closest_palette_color (pixel : Nat) : Nat :=
  (palette.foldl
    (fun acc palette_color =>
      let distance := color_distance pixel palette_color
      if distance < acc.1 then (distance, palette_color) else acc)
    (255 * 255 + 255 * 255 + 255 * 255 + 1, 0)).2

/-- One neighbour update of `dither`'s loop body:
`if let Some(pixel) = bitmap_memory.get_mut(pixel_idx) { *pixel += delta }`.
The slice handed out by `into_slice` has `W * H` elements, so `get_mut`
succeeds exactly when `pixel_idx < W * H`; the `u32` `+=` wraps modulo
`2^32`. -/
def diffuse (W H : Nat) (mem : Mem) (pixel_idx delta : Nat) : Mem :=
  if pixel_idx < W * H then store mem pixel_idx ((mem pixel_idx + delta) % U32)
  else mem

/-- Body of `dither`'s doubly nested loop for one pixel `(x, y)`: replace the
pixel with the nearest palette color, then diffuse `quant_error` (a whole
`u32` saturating subtraction) to the four Floyd-Steinberg neighbours. In
each diffused amount `quant_error * k / 16` the `u32` product wraps modulo
`2^32` before the division. -/
def dither_pixel (W H : Nat) (x y : Nat) (mem : Mem) : Mem :=
  let old_pixel := mem (y * W + x)
  let new_pixel := find_closest_palette_color old_pixel
  let mem1 := store mem (y * W + x) new_pixel
  let quant_error := old_pixel - new_pixel
  let mem2 :=
    if x < W - 1 then diffuse W H mem1 (y * W + (x + 1)) (quant_error * 7 % U32 / 16)
    else mem1
  let mem3 :=
    if 0 < x ∧ y < H - 1 then
      diffuse W H mem2 ((y + 1) * W + (x - 1)) (quant_error * 3 % U32 / 16)
    else mem2
  let mem4 :=
    if y < H - 1 then diffuse W H mem3 ((y + 1) * W + x) (quant_error * 5 % U32 / 16)
    else mem3
  if x < W - 1 ∧ y < H - 1 then
    diffuse W H mem4 ((y + 1) * W + (x + 1)) (quant_error * 1 % U32 / 16)
  else mem4

/-- Inner loop of `dither`: processes `cnt` pixels of row `y` starting at
column `x`. -/
def dither_row (W H y : Nat) (x : Nat) : Nat → Mem → Mem
  | 0, mem => mem
  | cnt + 1, mem => dither_row W H y (x + 1) cnt (dither_pixel W H x y mem)

/-- Outer loop of `dither`: processes `cnt` rows starting at row `y`. -/
def dither_rows (W H x xcnt : Nat) (y : Nat) : Nat → Mem → Mem
  | 0, mem => mem
  | cnt + 1, mem => dither_rows W H x xcnt (y + 1) cnt (dither_row W H y x xcnt mem)

/-- Embeds `dither` of draw.rs with the same clipped iteration ranges as
`draw_rectangle`. -/
def dither (W H : Nat) (mem : Mem) (x y width height : Nat) : Mem :=
  dither_rows W H x (min (x + width) W - x) y (min (y + height) H - y) mem

/-- Per-channel quantization error, modelled from the spec's words: "compute
quantization error as `old_pixel − new_pixel` per packed channel (also via
saturating subtraction)" — each of the R, G, B channel differences taken by
an independent saturating subtraction and repacked. (The code instead
performs one saturating subtraction on the whole packed `u32`.) -/
def per_channel_quant_error (old_pixel new_pixel : Nat) : Nat :=
  let r := ((old_pixel >>> 16) &&& 0xFF) - ((new_pixel >>> 16) &&& 0xFF)
  let g := ((old_pixel >>> 8) &&& 0xFF) - ((new_pixel >>> 8) &&& 0xFF)
  let b := (old_pixel &&& 0xFF) - (new_pixel &&& 0xFF)
  (r <<< 16) ||| (g <<< 8) ||| b

end Draw

namespace Png

/-! ### png.rs -/

/-- The `&'static str` block-kind tags carried by `Error::IncompleteBlock`. -/
inductive BlockKind where
  | IHDR
  | IEND
deriving DecidableEq, Repr

/-- Embeds `png::Error`. The payloads of `Io` (OS error and path) and
`Deflate` (the inner `io::Error`) are irrelevant to control flow and are
dropped. -/
inductive Error where
  | Io
  | BadMagic
  | FileEnd
  | ChecksumFailed
  | ExpectedIHDR
  | IncompleteBlock (block_kind : BlockKind)
  | NoIDAT
  | Deflate
  | OnlyRGBA
  | InterlaceNotSupported
  | InvalidFilterType
deriving DecidableEq, Repr

/-- Embeds the `IHDR` struct of png.rs. -/
structure IHDR where
  width : Nat
  height : Nat
  bit_depth : Nat
  color_type : Nat
  compression_method : Nat
  filter_method : Nat
  interlace_method : Nat
deriving DecidableEq, Repr

/-- Embeds `PngBlockKind`. The `IDAT` payload is a copy of the borrowed
slice. -/
inductive PngBlockKind where
  | IHDR (ihdr : IHDR)
  | IEND
  | IDAT (data : List Nat)
  | Unknown
deriving DecidableEq, Repr

/-- Embeds `PngBlock`. -/
structure PngBlock where
  len : Nat
  chunk_type : List Nat
  checksum : Nat
  block : PngBlockKind
deriving DecidableEq, Repr

/-- Embeds `parser::get_u8`. The parser state (`State.current_byte`) is the
first argument and, on success, the second component of the result; on
failure the Rust function returns before touching the `&mut` state, so the
caller's cursor keeps its old value. -/
def get_u8 (st : Nat) (data : List Nat) : Except Error (Nat × Nat) :=
  if st + 1 > data.length then .error .FileEnd
  else .ok (data.getD st 0, st + 1)

/-- Embeds `parser::get_u32` (big-endian `u32::from_be_bytes`). -/
def get_u32 (st : Nat) (data : List Nat) : Except Error (Nat × Nat) :=
  if st + 4 > data.length then .error .FileEnd
  else .ok (data.getD st 0 * 16777216 + data.getD (st + 1) 0 * 65536 +
            data.getD (st + 2) 0 * 256 + data.getD (st + 3) 0, st + 4)

/-- Embeds `parser::get_slice`: returns `data[st..st+len]`. -/
def get_slice (st : Nat) (data : List Nat) (len : Nat) : Except Error (List Nat × Nat) :=
  if st + len > data.length then .error .FileEnd
  else .ok ((data.drop st).take len, st + len)

/-- Embeds `parser::parse_magic`. -/
def parse_magic (st : Nat) (data : List Nat) : Except Error Nat :=
  if st + 8 > data.length then .error .BadMagic
  else if (data.drop st).take 8 = [0x89, 0x50, 0x4E, 0x47, 0x0D, 0x0A, 0x1A, 0x0A] then
    .ok (st + 8)
  else .error .BadMagic

/-- Modelled from the spec: the `crc32fast` crate (an external dependency,
not part of `src/`) computes the standard CRC-32 (the PNG / IEEE 802.3
polynomial, reflected form, `0xEDB88320`): one step of the bitwise
algorithm. -/
def crc32_step (crc : Nat) : Nat :=
  if crc % 2 = 1 then (crc / 2) ^^^ 0xEDB88320 else crc / 2

/-- Modelled from the spec: CRC-32 absorption of one byte (8 bit steps). -/
def crc32_update (crc byte : Nat) : Nat :=
  crc32_step (crc32_step (crc32_step (crc32_step
    (crc32_step (crc32_step (crc32_step (crc32_step (crc ^^^ byte % 256))))))))

/-- Modelled from the spec: "recompute CRC32 over `type_tag ++ payload`".
Standard CRC-32 of a byte sequence (initial value `0xFFFFFFFF`, final
complement), the function computed by `crc32fast::Hasher`. -/
def crc32 (data : List Nat) : Nat :=
  (data.foldl crc32_update 0xFFFFFFFF) ^^^ 0xFFFFFFFF

/-- Embeds `parser::parse_ihdr`. -/
def parse_ihdr (st : Nat) (data : List Nat) (expected_len : Nat) :
    Except Error ((List Nat × PngBlockKind) × Nat) := do
  let start := st
  let (width, st) ← get_u32 st data
  let (height, st) ← get_u32 st data
  let (bit_depth, st) ← get_u8 st data
  let (color_type, st) ← get_u8 st data
  let (compression_method, st) ← get_u8 st data
  let (filter_method, st) ← get_u8 st data
  let (interlace_method, st) ← get_u8 st data
  let parsed_bytes := st - start
  if expected_len ≠ parsed_bytes then
    .error (.IncompleteBlock .IHDR)
  else
    .ok (((data.drop start).take (st - start),
          .IHDR ⟨width, height, bit_depth, color_type,
                 compression_method, filter_method, interlace_method⟩), st)

/-- Embeds `parser::parse_iend`. -/
def parse_iend (expected_len : Nat) : Except Error (List Nat × PngBlockKind) :=
  if expected_len ≠ 0 then .error (.IncompleteBlock .IEND)
  else .ok ([], .IEND)

/-- Embeds `parser::parse_idat`. -/
def parse_idat (st : Nat) (data : List Nat) (expected_len : Nat) :
    Except Error ((List Nat × PngBlockKind) × Nat) := do
  let (d, st) ← get_slice st data expected_len
  .ok ((d, .IDAT d), st)

/-- The `match chunk_type` expression inside `parser::parse_block`, factored
out as a definition (`IHDR` = `[0x49,0x48,0x44,0x52]`, `IEND` =
`[0x49,0x45,0x4E,0x44]`, `IDAT` = `[0x49,0x44,0x41,0x54]`). -/
def parse_chunk_kind (chunk_type : List Nat) (st : Nat) (data : List Nat) (len : Nat) :
    Except Error ((List Nat × PngBlockKind) × Nat) :=
  if chunk_type = [0x49, 0x48, 0x44, 0x52] then parse_ihdr st data len
  else if chunk_type = [0x49, 0x45, 0x4E, 0x44] then do
    let (d, block) ← parse_iend len
    .ok ((d, block), st)
  else if chunk_type = [0x49, 0x44, 0x41, 0x54] then parse_idat st data len
  else do
    let (d, st) ← get_slice st data len
    .ok ((d, .Unknown), st)

/-- Embeds `parser::parse_block`: length, type tag, kind-specific payload
parse, stored checksum, then CRC-32 recomputation over
`chunk_type ++ chunk_data` and the mismatch check. -/
def parse_block (st : Nat) (data : List Nat) : Except Error (PngBlock × Nat) := do
  let (len, st) ← get_u32 st data
  let (chunk_type, st) ← get_slice st data 4
  let ((chunk_data, block), st) ← parse_chunk_kind chunk_type st data len
  let (checksum, st) ← get_u32 st data
  let calculated_checksum := crc32 (chunk_type ++ chunk_data)
  if calculated_checksum ≠ checksum then .error .ChecksumFailed
  else .ok (⟨len, chunk_type, checksum, block⟩, st)

/-- Embeds `FilterType`. -/
inductive FilterType where
  | None
  | Sub
  | Up
  | Average
  | Paeth
deriving DecidableEq, Repr

/-- Embeds `impl TryFrom<u8> for FilterType`: values above 4 are rejected,
the rest map to the discriminants 0..4. -/
def FilterType.try_from (v : Nat) : Except Error FilterType :=
  if v > 4 then .error .InvalidFilterType
  else if v = 0 then .ok .None
  else if v = 1 then .ok .Sub
  else if v = 2 then .ok .Up
  else if v = 3 then .ok .Average
  else .ok .Paeth

/-- Embeds `paeth` of png.rs. The Rust function takes `i16` arguments (fed
byte values `0..=255`, so no overflow) and returns the chosen neighbour
`as u8` (the identity on byte values); here the signed intermediate
arithmetic is carried out in `Int`. -/
def paeth (a b c : Nat) : Nat :=
  let p : Int := (a : Int) + (b : Int) - (c : Int)
  let pa := (p - (a : Int)).natAbs
  let pb := (p - (b : Int)).natAbs
  let pc := (p - (c : Int)).natAbs
  if pa ≤ pb ∧ pa ≤ pc then a
  else if pb ≤ pc then b
  else c

/-- The `for x_idx in 0..encoded_line.len()` push loop shared by the `Sub`,
`Up`, `Average` and `Paeth` arms of `decode_filter`: repeatedly pushes
`byte output_img x_idx` onto the output buffer. -/
def decode_filter_loop (byte : List Nat → Nat → Nat) :
    List Nat → Nat → Nat → List Nat
  | output_img, _, 0 => output_img
  | output_img, x_idx, cnt + 1 =>
    decode_filter_loop byte (output_img ++ [byte output_img x_idx]) (x_idx + 1) cnt

/-- Loop body of the `Sub` arm of `decode_filter`.
`(x_idx > 3).then(…).unwrap_or_default()` becomes an `if` with default `0`,
`.get(i).copied().unwrap_or_default()` becomes `List.getD i 0`, and `u16`
arithmetic `(…) & 0xff` is written `% 256`. -/
def sub_byte (encoded_line : List Nat) (y_idx : Nat) : List Nat → Nat → Nat :=
  fun out x_idx =>
    (encoded_line.getD x_idx 0 +
      (if 3 < x_idx then out.getD (y_idx * encoded_line.length + (x_idx - 4)) 0
       else 0)) % 256

/-- Loop body of the `Up` arm of `decode_filter`. -/
def up_byte (encoded_line : List Nat) (y_idx : Nat) : List Nat → Nat → Nat :=
  fun out x_idx =>
    (encoded_line.getD x_idx 0 +
      (if 0 < y_idx then out.getD ((y_idx - 1) * encoded_line.length + x_idx) 0
       else 0)) % 256

/-- Loop body of the `Average` arm of `decode_filter`: the `u16` sum `a + b`
cannot overflow, so `(a + b) / 2` is exact integer floor division. -/
def average_byte (encoded_line : List Nat) (y_idx : Nat) : List Nat → Nat → Nat :=
  fun out x_idx =>
    (encoded_line.getD x_idx 0 +
      ((if 3 < x_idx then out.getD (y_idx * encoded_line.length + (x_idx - 4)) 0
        else 0) +
       (if 0 < y_idx then out.getD ((y_idx - 1) * encoded_line.length + x_idx) 0
        else 0)) / 2) % 256

/-- Loop body of the `Paeth` arm of `decode_filter`. This arm indexes
`output_img` directly (which would panic out of bounds); within the decode
loop the index is always in bounds, where direct indexing and `getD _ 0`
agree. -/
def paeth_byte (encoded_line : List Nat) (y_idx : Nat) : List Nat → Nat → Nat :=
  fun out x_idx =>
    let a := if 3 < x_idx then out.getD (y_idx * encoded_line.length + (x_idx - 4)) 0
      else 0
    let b := if 0 < y_idx then out.getD ((y_idx - 1) * encoded_line.length + x_idx) 0
      else 0
    let c := if 3 < x_idx ∧ 0 < y_idx then
        out.getD ((y_idx - 1) * encoded_line.length + (x_idx - 4)) 0
      else 0
    (encoded_line.getD x_idx 0 + paeth a b c) % 256

/-- Embeds `decode_filter` of png.rs; each `for` arm is `decode_filter_loop`
over the arm's loop body. -/
def decode_filter (output_img : List Nat) (encoded_line : List Nat)
    (filter_type : FilterType) (y_idx : Nat) : List Nat :=
  match filter_type with
  | .None => output_img ++ encoded_line
  | .Sub => decode_filter_loop (sub_byte encoded_line y_idx) output_img 0 encoded_line.length
  | .Up => decode_filter_loop (up_byte encoded_line y_idx) output_img 0 encoded_line.length
  | .Average =>
    decode_filter_loop (average_byte encoded_line y_idx) output_img 0 encoded_line.length
  | .Paeth =>
    decode_filter_loop (paeth_byte encoded_line y_idx) output_img 0 encoded_line.length

/-- Embeds the scanline `while` loop of `Png::load_from_path`
(`while state.current_byte != decompressed_img.len()`): read a filter byte,
convert it, read `width * 4` filtered bytes, reconstruct the row, repeat.
The structural `fuel` argument only bounds the number of iterations; every
iteration advances the cursor, so with `fuel > data.length - st` (as used in
`decode_image_data`) the fuel case is unreachable. -/
def decode_scanlines (width : Nat) (data : List Nat) :
    Nat → Nat → List Nat → Nat → Except Error (List Nat × Nat)
  | 0, _, _, _ => .error .FileEnd
  | fuel + 1, st, raw_img, row_idx =>
    if st = data.length then .ok (raw_img, row_idx)
    else
      match get_u8 st data with
      | .error e => .error e
      | .ok (b, st) =>
        match FilterType.try_from b with
        | .error e => .error e
        | .ok filter_type =>
          match get_slice st data (width * 4) with
          | .error e => .error e
          | .ok (encoded_line, st) =>
            decode_scanlines width data fuel st
              (decode_filter raw_img encoded_line filter_type row_idx) (row_idx + 1)

/-- The scanline loop of `Png::load_from_path` run from the start of the
decompressed stream with an empty output and sufficient fuel; returns the
reconstructed bytes and the final `row_idx`. -/
def decode_image_data (width : Nat) (data : List Nat) : Except Error (List Nat × Nat) :=
  decode_scanlines width data (data.length + 1) 0 [] 0

/-- Embeds the chunk-collection `loop` of `Png::load_from_path`: parse
blocks until `IEND`, pushing every non-`IEND` block. As in
`decode_scanlines`, `fuel` is an artificial bound: a successful
`parse_block` advances the cursor by at least 12, so fuel
`data.length + 1` can never run out. -/
def parse_blocks (data : List Nat) : Nat → Nat → List PngBlock → Except Error (List PngBlock × Nat)
  | 0, _, _ => .error .FileEnd
  | fuel + 1, st, blocks =>
    match parse_block st data with
    | .error e => .error e
    | .ok (block, st) =>
      match block.block with
      | .IEND => .ok (blocks, st)
      | _ => parse_blocks data fuel st (blocks ++ [block])

/-- The `IDAT` payloads of the chunk list, in file order (the sequence
`IDATBlockStream` exposes to the decompressor). -/
def idat_payloads (blocks : List PngBlock) : List (List Nat) :=
  blocks.filterMap fun b =>
    match b.block with
    | .IDAT d => some d
    | _ => none

/-- Embeds `decompress_img_data`. `IDATBlockStream::new` fails with `NoIDAT`
when no `IDAT` chunk exists; otherwise the zlib stream (the external
`flate2::ZlibDecoder`, modelled as the `inflate` parameter) consumes the
concatenated `IDAT` payloads, and its failures surface as `Deflate`. -/
def decompress_img_data (inflate : List Nat → Except Error (List Nat))
    (blocks : List PngBlock) : Except Error (List Nat) :=
  if idat_payloads blocks = [] then .error .NoIDAT
  else inflate (idat_payloads blocks).flatten

/-- Embeds the `chunks_exact_mut(4)` / reverse-first-three pass of
`Png::load_from_path`: each 4-byte pixel `[r, g, b, a]` becomes
`[b, g, r, a]`; a trailing fragment shorter than 4 bytes is left alone. -/
def swap_rgb_bgr : List Nat → List Nat
  | r :: g :: b :: a :: rest => b :: g :: r :: a :: swap_rgb_bgr rest
  | rest => rest

/-- Embeds the `Png` struct. -/
structure Png where
  header : IHDR
  img_data : List Nat
deriving DecidableEq, Repr

/-- Embeds `Png::load_from_path` minus the file read: signature check,
header block (must be `IHDR`, then the RGBA/8-bit/non-interlaced checks),
chunk collection, decompression (through the external `inflate`), scanline
reconstruction, and the RGB→BGR byte swap. -/
def load_from_data (inflate : List Nat → Except Error (List Nat))
    (data : List Nat) : Except Error Png := do
  let st ← parse_magic 0 data
  let (first_block, st) ← parse_block st data
  let ihdr ← match first_block.block with
    | .IHDR ihdr => Except.ok ihdr
    | _ => Except.error Error.ExpectedIHDR
  if ihdr.color_type ≠ 6 ∨ ihdr.bit_depth ≠ 8 then Except.error Error.OnlyRGBA
  else if ihdr.interlace_method ≠ 0 then Except.error Error.InterlaceNotSupported
  else do
    let (blocks, _st) ← parse_blocks data (data.length + 1) st []
    let decompressed_img ← decompress_img_data inflate blocks
    let (raw_img, _rows) ← decode_image_data ihdr.width decompressed_img
    Except.ok ⟨ihdr, swap_rgb_bgr raw_img⟩

/-- Paeth predictor as literally worded by the spec: "picks whichever of
`a`, `b`, `(a+b−c)` has the smallest absolute deviation from the true
predictor `p = a+b−c`, preferring `a` on a tie with `b`, then `b` on a tie
with `c`" — i.e. the third candidate is the value `a + b - c` itself
(whose deviation from `p` is always zero), not the above-left neighbour
`c`. -/
def spec_paeth_predictor (a b c : Nat) : Int :=
  let p : Int := (a : Int) + (b : Int) - (c : Int)
  if (p - (a : Int)).natAbs ≤ (p - (b : Int)).natAbs ∧
     (p - (a : Int)).natAbs ≤ (p - ((a : Int) + (b : Int) - (c : Int))).natAbs then a
  else if (p - (b : Int)).natAbs ≤ (p - ((a : Int) + (b : Int) - (c : Int))).natAbs then b
  else (a : Int) + (b : Int) - (c : Int)

/-- Big-endian byte encoding of a `u32`, used to build concrete test files. -/
def u32_be (n : Nat) : List Nat :=
  [n / 16777216 % 256, n / 65536 % 256, n / 256 % 256, n % 256]

/-- Payload of a valid IHDR chunk: 1×1, bit depth 8, color type 6 (RGBA),
no compression/filter/interlace fields beyond the defaults. -/
def ihdr_payload : List Nat := [0, 0, 0, 1, 0, 0, 0, 1, 8, 6, 0, 0, 0]

/-- A well-formed IHDR chunk (correct length and CRC). -/
def ihdr_chunk : List Nat :=
  u32_be 13 ++ [0x49, 0x48, 0x44, 0x52] ++ ihdr_payload ++
    u32_be (crc32 ([0x49, 0x48, 0x44, 0x52] ++ ihdr_payload))

/-- An IEND chunk whose stored checksum has its lowest bit flipped relative
to the correct CRC-32. -/
def iend_chunk_flipped : List Nat :=
  u32_be 0 ++ [0x49, 0x45, 0x4E, 0x44] ++ u32_be (crc32 [0x49, 0x45, 0x4E, 0x44] ^^^ 1)

/-- A PNG file (signature, valid IHDR, IEND) whose last chunk's checksum is
flipped by one bit. -/
def flipped_checksum_file : List Nat :=
  [0x89, 0x50, 0x4E, 0x47, 0x0D, 0x0A, 0x1A, 0x0A] ++ ihdr_chunk ++ iend_chunk_flipped

end Png

/-! ## Helper lemmas -/

namespace Draw

theorem store_ne (mem : Mem) (i v j : Nat) (h : j ≠ i) : store mem i v j = mem j := by
  simp [store, h]

theorem store_eq (mem : Mem) (i v : Nat) : store mem i v i = v := by
  simp [store]

theorem flat_index_lt (W H x y : Nat) (hx : x < W) (hy : y < H) : y * W + x < W * H := by
  have h1 : y * W + x < (y + 1) * W := by
    rw [Nat.succ_mul]; omega
  have h2 : (y + 1) * W ≤ H * W := Nat.mul_le_mul_right W hy
  rw [Nat.mul_comm W H]; omega

theorem channel_recomb (n : Nat) :
    (((n >>> 16) &&& 0xFF) <<< 16) ||| (((n >>> 8) &&& 0xFF) <<< 8) ||| (n &&& 0xFF) =
      n % 16777216 := by
  apply Nat.eq_of_testBit_eq
  intro i
  have h255 : (0xFF : Nat) = 2 ^ 8 - 1 := rfl
  have h2 : (16777216 : Nat) = 2 ^ 24 := rfl
  rw [h255, h2]
  simp only [Nat.testBit_lor, Nat.testBit_land, Nat.testBit_shiftLeft, Nat.testBit_shiftRight,
    Nat.testBit_mod_two_pow, Nat.testBit_two_pow_sub_one]
  rcases Nat.lt_or_ge i 8 with h8 | h8
  · simp [show ¬ 16 ≤ i by omega, show ¬ 8 ≤ i by omega, h8, show i < 24 by omega]
  rcases Nat.lt_or_ge i 16 with h16 | h16
  · rw [show 8 + (i - 8) = i by omega]
    simp [show ¬ 16 ≤ i by omega, show 8 ≤ i by omega, show i - 8 < 8 by omega,
      show ¬ i < 8 by omega, show i < 24 by omega]
  rcases Nat.lt_or_ge i 24 with h24 | h24
  · rw [show 16 + (i - 16) = i by omega]
    simp [show 16 ≤ i by omega, show i - 16 < 8 by omega, show ¬ i - 8 < 8 by omega,
      show ¬ i < 8 by omega, show i < 24 by omega]
  · simp [show ¬ i - 16 < 8 by omega, show ¬ i - 8 < 8 by omega,
      show ¬ i < 8 by omega, show ¬ i < 24 by omega]

theorem mask_red (n : Nat) : n &&& 0xff0000 = ((n >>> 16) &&& 0xFF) <<< 16 := by
  apply Nat.eq_of_testBit_eq
  intro i
  have hm : (0xff0000 : Nat) = (2 ^ 8 - 1) <<< 16 := rfl
  have h255 : (0xFF : Nat) = 2 ^ 8 - 1 := rfl
  rw [hm, h255]
  simp only [Nat.testBit_land, Nat.testBit_shiftLeft, Nat.testBit_shiftRight,
    Nat.testBit_two_pow_sub_one]
  rcases Nat.lt_or_ge i 16 with h16 | h16
  · simp [show ¬ 16 ≤ i by omega]
  · rw [show 16 + (i - 16) = i by omega]
    simp [show 16 ≤ i by omega, Bool.and_comm]

theorem mask_green (n : Nat) : n &&& 0xff00 = ((n >>> 8) &&& 0xFF) <<< 8 := by
  apply Nat.eq_of_testBit_eq
  intro i
  have hm : (0xff00 : Nat) = (2 ^ 8 - 1) <<< 8 := rfl
  have h255 : (0xFF : Nat) = 2 ^ 8 - 1 := rfl
  rw [hm, h255]
  simp only [Nat.testBit_land, Nat.testBit_shiftLeft, Nat.testBit_shiftRight,
    Nat.testBit_two_pow_sub_one]
  rcases Nat.lt_or_ge i 8 with h8 | h8
  · simp [show ¬ 8 ≤ i by omega]
  · rw [show 8 + (i - 8) = i by omega]
    simp [show 8 ≤ i by omega, Bool.and_comm]

theorem channel_hi (n : Nat) : (n >>> 16) &&& 0xFF = n / 65536 % 256 := by
  have h255 : (0xFF : Nat) = 2 ^ 8 - 1 := rfl
  rw [h255, Nat.and_pow_two_sub_one_eq_mod, Nat.shiftRight_eq_div_pow]

theorem channel_mid (n : Nat) : (n >>> 8) &&& 0xFF = n / 256 % 256 := by
  have h255 : (0xFF : Nat) = 2 ^ 8 - 1 := rfl
  rw [h255, Nat.and_pow_two_sub_one_eq_mod, Nat.shiftRight_eq_div_pow]

theorem channel_lo (n : Nat) : n &&& 0xFF = n % 256 := by
  have h255 : (0xFF : Nat) = 2 ^ 8 - 1 := rfl
  rw [h255, Nat.and_pow_two_sub_one_eq_mod]

theorem rat_floor_toNat_natCast (m : Nat) : (Rat.floor ((m : ℚ))).toNat = m := by
  rw [show Rat.floor ((m : ℚ)) = ⌊(m : ℚ)⌋ from rfl, Int.floor_natCast]
  exact Int.toNat_natCast m

theorem blend_alpha_zero (pixel bitmap_pixel : Nat)
    (h : (bitmap_pixel >>> 24) &&& 0xFF = 0) :
    blend_pixel pixel bitmap_pixel = pixel % 16777216 := by
  unfold blend_pixel
  rw [h]
  simp only [lerp, Nat.cast_zero, zero_div, zero_mul, add_zero]
  simp only [rat_floor_toNat_natCast]
  exact channel_recomb pixel

theorem blend_alpha_full (pixel bitmap_pixel : Nat)
    (h : (bitmap_pixel >>> 24) &&& 0xFF = 255) :
    blend_pixel pixel bitmap_pixel = bitmap_pixel % 16777216 := by
  unfold blend_pixel
  rw [h]
  have e : ∀ v0 v1 : ℚ, lerp v0 v1 (((255 : Nat) : ℚ) / 255) = v1 := by
    intro v0 v1
    unfold lerp
    push_cast
    ring
  simp only [e]
  simp only [rat_floor_toNat_natCast]
  exact channel_recomb bitmap_pixel

end Draw

/-! ## Claim theorems -/

namespace Draw

theorem nearest_foldl_mem (pixel : Nat) (l : List Nat) (acc : Nat × Nat) :
    (l.foldl
      (fun acc palette_color =>
        let distance := color_distance pixel palette_color
        if distance < acc.1 then (distance, palette_color) else acc) acc).2 = acc.2 ∨
    (l.foldl
      (fun acc palette_color =>
        let distance := color_distance pixel palette_color
        if distance < acc.1 then (distance, palette_color) else acc) acc).2 ∈ l := by
  induction l generalizing acc with
  | nil => exact Or.inl rfl
  | cons c l ih =>
    simp only [List.foldl_cons]
    rcases ih (if color_distance pixel c < acc.1 then (color_distance pixel c, c) else acc)
      with h | h
    · by_cases hc : color_distance pixel c < acc.1
      · right
        rw [h, if_pos hc]
        exact List.mem_cons_self c l
      · left
        rw [h, if_neg hc]
    · right
      exact List.mem_cons_of_mem c h

theorem closest_mem (pixel : Nat) : find_closest_palette_color pixel ∈ palette := by
  unfold find_closest_palette_color
  rcases nearest_foldl_mem pixel palette (255 * 255 + 255 * 255 + 255 * 255 + 1, 0) with h | h
  · rw [h]; simp [palette]
  · exact h

/-- C10: `find_closest_palette_color` always returns one of the 8 fixed
palette colors, for every 32-bit input pixel (the accumulator starts at
`(255*255*3 + 1, 0)` whose color component `0x000000` is itself the first
palette entry, and every update installs a palette entry). -/
theorem find_closest_mem_palette (pixel : Nat) :
    find_closest_palette_color pixel ∈ palette :=
  closest_mem pixel

theorem dist_white (pixel : Nat) : color_distance pixel 0xffffff = 0 := by
  have e1 : (0xffffff : Nat) &&& 0xff0000 = 0xff0000 := by decide
  have e2 : (0xffffff : Nat) &&& 0x00ff00 = 0x00ff00 := by decide
  have e3 : (0xffffff : Nat) &&& 0x0000ff = 0x0000ff := by decide
  simp only [color_distance, e1, e2, e3,
    Nat.sub_eq_zero_of_le Nat.and_le_right, Nat.mul_zero, Nat.add_zero]

theorem fold_min_invariant (pixel : Nat) (l : List Nat) (acc : Nat × Nat)
    (hq : acc.1 = 0 → color_distance pixel acc.2 = 0) :
    ((l.foldl
      (fun acc palette_color =>
        let distance := color_distance pixel palette_color
        if distance < acc.1 then (distance, palette_color) else acc) acc).1 = 0 →
     color_distance pixel
      (l.foldl
        (fun acc palette_color =>
          let distance := color_distance pixel palette_color
          if distance < acc.1 then (distance, palette_color) else acc) acc).2 = 0) := by
  induction l generalizing acc with
  | nil => exact hq
  | cons c l ih =>
    simp only [List.foldl_cons]
    apply ih
    by_cases hc : color_distance pixel c < acc.1
    · rw [if_pos hc]
      intro h
      simpa using h ▸ rfl
    · rw [if_neg hc]
      exact hq

theorem fold_min_zero (pixel : Nat) (l : List Nat) (acc : Nat × Nat)
    (hw : 0xffffff ∈ l ∨ acc.1 = 0) :
    (l.foldl
      (fun acc palette_color =>
        let distance := color_distance pixel palette_color
        if distance < acc.1 then (distance, palette_color) else acc) acc).1 = 0 := by
  induction l generalizing acc with
  | nil =>
    rcases hw with h | h
    · cases h
    · exact h
  | cons c l ih =>
    simp only [List.foldl_cons]
    rcases hw with h | h
    · rcases List.mem_cons.mp h with rfl | hmem
      · apply ih
        right
        by_cases hc : color_distance pixel 0xffffff < acc.1
        · rw [if_pos hc]; exact dist_white pixel
        · rw [if_neg hc]
          have := dist_white pixel
          omega
      · exact ih _ (Or.inl hmem)
    · apply ih
      right
      rw [if_neg (by omega)]
      exact h

theorem closest_dist_zero (pixel : Nat) :
    color_distance pixel (find_closest_palette_color pixel) = 0 := by
  unfold find_closest_palette_color
  apply fold_min_invariant pixel palette _ (by intro h; omega)
  apply fold_min_zero
  left
  decide

theorem and_red_arith (n : Nat) : n &&& 0xff0000 = n / 65536 % 256 * 65536 := by
  rw [mask_red, channel_hi, Nat.shiftLeft_eq]

theorem and_green_arith (n : Nat) : n &&& 0xff00 = n / 256 % 256 * 256 := by
  rw [mask_green, channel_mid, Nat.shiftLeft_eq]

theorem dist_components (p K : Nat) (h : color_distance p K = 0) :
    p / 65536 % 256 ≤ K / 65536 % 256 ∧ p / 256 % 256 ≤ K / 256 % 256 ∧
      p % 256 ≤ K % 256 := by
  simp only [color_distance, and_red_arith, and_green_arith, channel_lo] at h
  have h1 : p / 65536 % 256 * 65536 - K / 65536 % 256 * 65536 = 0 :=
    mul_self_eq_zero.mp (by omega)
  have h2 : p / 256 % 256 * 256 - K / 256 % 256 * 256 = 0 :=
    mul_self_eq_zero.mp (by omega)
  have h3 : p % 256 - K % 256 = 0 :=
    mul_self_eq_zero.mp (by omega)
  omega

theorem closest_ge (p : Nat) (hp : p < 16777216) : p ≤ find_closest_palette_color p := by
  have hc := dist_components p _ (closest_dist_zero p)
  have hmem := closest_mem p
  simp only [palette, List.mem_cons, List.not_mem_nil, or_false] at hmem
  rcases hmem with h | h | h | h | h | h | h | h <;> rw [h] at hc ⊢ <;> omega

theorem per_channel_zero (p : Nat) :
    per_channel_quant_error p (find_closest_palette_color p) = 0 := by
  have hc := dist_components p _ (closest_dist_zero p)
  unfold per_channel_quant_error
  simp only [channel_lo, Nat.shiftRight_eq_div_pow]
  have e1 : p / 2 ^ 16 % 256 - (find_closest_palette_color p) / 2 ^ 16 % 256 = 0 := by
    have e : (2 : Nat) ^ 16 = 65536 := by norm_num
    rw [e]; omega
  have e2 : p / 2 ^ 8 % 256 - (find_closest_palette_color p) / 2 ^ 8 % 256 = 0 := by
    have e : (2 : Nat) ^ 8 = 256 := by norm_num
    rw [e]; omega
  have e3 : p % 256 - (find_closest_palette_color p) % 256 = 0 := by omega
  rw [e1, e2, e3]
  decide

/-- C3 (amended): inside `dither`, the error diffused to the neighbours is
`old_pixel.saturating_sub(new_pixel)` computed on the whole packed 32-bit
values, not channel by channel. For every pixel whose alpha byte is 0
(i.e. `old_pixel < 2^24`) the two computations agree — both are `0`,
because the chosen palette color dominates the pixel on each of R, G and B
(a consequence of the saturating, reduction-only distance metric: white
always has distance 0). -/
theorem quant_error_whole_sub (old_pixel : Nat) (h : old_pixel < 16777216) :
    old_pixel - find_closest_palette_color old_pixel =
      per_channel_quant_error old_pixel (find_closest_palette_color old_pixel) ∧
    old_pixel - find_closest_palette_color old_pixel = 0 := by
  have h1 := closest_ge old_pixel h
  have h2 := per_channel_zero old_pixel
  refine ⟨?_, by omega⟩
  rw [h2]
  omega

/-- Witness for C3's amended theorem at the concrete pixel `0x123456`. -/
theorem quant_error_whole_sub_witness :
    (0x123456 : Nat) < 16777216 ∧
      (0x123456 : Nat) - find_closest_palette_color 0x123456 =
        per_channel_quant_error 0x123456 (find_closest_palette_color 0x123456) :=
  ⟨by decide, (quant_error_whole_sub 0x123456 (by decide)).1⟩

theorem coords_eq (W y x i : Nat) (hx : x < W) (h : i = y * W + x) :
    i / W = y ∧ i % W = x := by
  subst h
  rw [Nat.mul_comm y W]
  constructor
  · rw [Nat.mul_add_div (by omega)]
    rw [Nat.div_eq_of_lt hx]
    omega
  · rw [Nat.mul_add_mod]
    exact Nat.mod_eq_of_lt hx

theorem diffuse_noteq (W H : Nat) (mem : Mem) (idx d i : Nat)
    (h : W * H ≤ i ∨ i ≠ idx) : diffuse W H mem idx d i = mem i := by
  unfold diffuse
  split
  next hb =>
    apply store_ne
    rcases h with h | h
    · omega
    · exact h
  next => rfl

theorem dither_pixel_frame (W H x y i : Nat) (mem : Mem) (hx : x < W) (hy : y < H)
    (hout : W * H ≤ i ∨ i / W < y ∨ y + 1 < i / W ∨ i % W + 1 < x ∨ x + 1 < i % W) :
    dither_pixel W H x y mem i = mem i := by
  have hW : 0 < W := by omega
  have hne : ∀ y' x', y ≤ y' → y' ≤ y + 1 → x ≤ x' + 1 → x' ≤ x + 1 → x' < W →
      y' * W + x' < W * H → i ≠ y' * W + x' := by
    intro y' x' h1 h2 h3 h4 h5 h6 he
    rcases coords_eq W y' x' i h5 he with ⟨e1, e2⟩
    rcases hout with h | h
    · omega
    · omega
  have key : ∀ (m : Mem) (g : Prop) (inst : Decidable g) (idx d : Nat),
      (g → W * H ≤ i ∨ i ≠ idx) → m i = mem i →
      (if g then diffuse W H m idx d else m) i = mem i := by
    intro m g inst idx d hg hm
    split
    next hgt => rw [diffuse_noteq W H m idx d i (hg hgt)]; exact hm
    next => exact hm
  simp only [dither_pixel]
  apply key
  · intro hg
    rcases hout with h | h
    · exact Or.inl h
    · refine Or.inr (hne (y + 1) (x + 1) (by omega) (by omega) (by omega) (by omega)
        (by omega) ?_)
      exact flat_index_lt W H (x + 1) (y + 1) (by omega) (by omega)
  apply key
  · intro hg
    rcases hout with h | h
    · exact Or.inl h
    · refine Or.inr (hne (y + 1) x (by omega) (by omega) (by omega) (by omega)
        (by omega) ?_)
      exact flat_index_lt W H x (y + 1) (by omega) (by omega)
  apply key
  · intro hg
    rcases hout with h | h
    · exact Or.inl h
    · refine Or.inr (hne (y + 1) (x - 1) (by omega) (by omega) (by omega) (by omega)
        (by omega) ?_)
      exact flat_index_lt W H (x - 1) (y + 1) (by omega) (by omega)
  apply key
  · intro hg
    rcases hout with h | h
    · exact Or.inl h
    · refine Or.inr (hne y (x + 1) (by omega) (by omega) (by omega) (by omega)
        (by omega) ?_)
      exact flat_index_lt W H (x + 1) y (by omega) (by omega)
  apply store_ne
  rcases hout with h | h
  · have := flat_index_lt W H x y hx hy
    omega
  · exact hne y x (by omega) (by omega) (by omega) (by omega) hx
      (flat_index_lt W H x y hx hy)

theorem dither_row_frame (W H y : Nat) :
    ∀ (cnt x : Nat) (mem : Mem) (i : Nat), x + cnt ≤ W → y < H →
      (W * H ≤ i ∨ i / W < y ∨ y + 1 < i / W ∨ i % W + 1 < x ∨ x + cnt < i % W) →
      dither_row W H y x cnt mem i = mem i := by
  intro cnt
  induction cnt with
  | zero => intro x mem i _ _ _; rfl
  | succ cnt ih =>
    intro x mem i hxw hy hout
    show dither_row W H y (x + 1) cnt (dither_pixel W H x y mem) i = mem i
    rw [ih (x + 1) _ i (by omega) hy (by rcases hout with h | h | h | h | h <;> omega)]
    exact dither_pixel_frame W H x y i mem (by omega) hy
      (by rcases hout with h | h | h | h | h <;> omega)

theorem dither_rows_frame (W H x0 xcnt : Nat) :
    ∀ (cnt y : Nat) (mem : Mem) (i : Nat), (x0 + xcnt ≤ W ∨ xcnt = 0) → y + cnt ≤ H →
      (W * H ≤ i ∨ i / W < y ∨ y + cnt < i / W ∨ i % W + 1 < x0 ∨ x0 + xcnt < i % W) →
      dither_rows W H x0 xcnt y cnt mem i = mem i := by
  intro cnt
  induction cnt with
  | zero => intro y mem i _ _ _; rfl
  | succ cnt ih =>
    intro y mem i hxw hyh hout
    show dither_rows W H x0 xcnt (y + 1) cnt (dither_row W H y x0 xcnt mem) i = mem i
    rw [ih (y + 1) _ i hxw (by omega) (by rcases hout with h | h | h | h | h <;> omega)]
    rcases hxw with hxw | hxw
    · exact dither_row_frame W H y xcnt x0 mem i (by omega) (by omega)
        (by rcases hout with h | h | h | h | h <;> omega)
    · subst hxw; rfl

/-- C2 (amended): the dither pass writes only within the buffer bounds
(every pixel at a flat index `≥ W * H` is untouched), and every pixel it can
change lies in the requested region clipped to the buffer, dilated by the
error-diffusion fringe: one column left and right of the region and one row
below it. Any pixel strictly outside that dilated region keeps its value.
(The original claim — no pixel outside the clipped region itself changes —
is refuted by `dither_outside_region_cex`.) -/
theorem dither_write_bounds (W H : Nat) (mem : Mem) (x y width height i : Nat) :
    (W * H ≤ i → dither W H mem x y width height i = mem i) ∧
    ((i / W < y ∨ min (y + height) H < i / W ∨ i % W + 1 < x ∨ min (x + width) W < i % W) →
      dither W H mem x y width height i = mem i) := by
  constructor
  · intro h
    unfold dither
    rcases le_or_lt (min (y + height) H) y with hcase | hcase
    · rw [show min (y + height) H - y = 0 by omega]; rfl
    · exact dither_rows_frame W H x (min (x + width) W - x) (min (y + height) H - y) y mem i
        (by omega) (by omega) (Or.inl h)
  · intro h
    unfold dither
    rcases le_or_lt (min (y + height) H) y with hcase | hcase
    · rw [show min (y + height) H - y = 0 by omega]; rfl
    · rcases Nat.eq_zero_or_pos W with hW | hW
      · exact dither_rows_frame W H x (min (x + width) W - x) (min (y + height) H - y) y mem i
          (by omega) (by omega) (Or.inl (by rw [hW, Nat.zero_mul]; exact Nat.zero_le i))
      · have him : i % W < W := Nat.mod_lt _ hW
        exact dither_rows_frame W H x (min (x + width) W - x) (min (y + height) H - y) y mem i
          (by omega) (by omega) (by omega)

/-- Witness for C2's amended theorem: an index past the buffer end and a
pixel above the region are both untouched. -/
theorem dither_write_bounds_witness :
    (4 * 4 ≤ 20 ∧ dither 4 4 (fun _ => 7) 1 1 2 2 20 = 7) ∧
      dither 4 4 (fun _ => 7) 1 1 2 2 0 = 7 :=
  ⟨⟨by decide, (dither_write_bounds 4 4 (fun _ => 7) 1 1 2 2 20).1 (by decide)⟩,
    (dither_write_bounds 4 4 (fun _ => 7) 1 1 2 2 0).2 (by decide)⟩

theorem draw_background_row_oob (W x_offset y_offset y : Nat) :
    ∀ (cnt x : Nat) (mem : Mem) (i H : Nat), x + cnt ≤ W → y < H → W * H ≤ i →
      draw_background_row W x_offset y_offset y x cnt mem i = mem i := by
  intro cnt
  induction cnt with
  | zero => intro x mem i H _ _ _; rfl
  | succ cnt ih =>
    intro x mem i H hxw hy hi
    show draw_background_row W x_offset y_offset y (x + 1) cnt _ i = mem i
    rw [ih (x + 1) _ i H (by omega) hy hi]
    exact store_ne _ _ _ _ (by have := flat_index_lt W H x y (by omega) hy; omega)

theorem draw_background_rows_oob (W x_offset y_offset : Nat) :
    ∀ (cnt y : Nat) (mem : Mem) (i H : Nat), y + cnt ≤ H → W * H ≤ i →
      draw_background_rows W x_offset y_offset y cnt mem i = mem i := by
  intro cnt
  induction cnt with
  | zero => intro y mem i H _ _; rfl
  | succ cnt ih =>
    intro y mem i H hyh hi
    show draw_background_rows W x_offset y_offset (y + 1) cnt _ i = mem i
    rw [ih (y + 1) _ i H (by omega) hi]
    exact draw_background_row_oob W x_offset y_offset y W 0 mem i H (by omega) (by omega) hi

theorem draw_rectangle_row_oob (W y color : Nat) :
    ∀ (cnt x : Nat) (mem : Mem) (i H : Nat), x + cnt ≤ W → y < H → W * H ≤ i →
      draw_rectangle_row W y color x cnt mem i = mem i := by
  intro cnt
  induction cnt with
  | zero => intro x mem i H _ _ _; rfl
  | succ cnt ih =>
    intro x mem i H hxw hy hi
    show draw_rectangle_row W y color (x + 1) cnt _ i = mem i
    rw [ih (x + 1) _ i H (by omega) hy hi]
    exact store_ne _ _ _ _ (by have := flat_index_lt W H x y (by omega) hy; omega)

theorem draw_rectangle_rows_oob (W pos_x xcnt color : Nat) :
    ∀ (cnt y : Nat) (mem : Mem) (i H : Nat), pos_x + xcnt ≤ W ∨ xcnt = 0 → y + cnt ≤ H →
      W * H ≤ i → draw_rectangle_rows W pos_x xcnt color y cnt mem i = mem i := by
  intro cnt
  induction cnt with
  | zero => intro y mem i H _ _ _; rfl
  | succ cnt ih =>
    intro y mem i H hxw hyh hi
    show draw_rectangle_rows W pos_x xcnt color (y + 1) cnt _ i = mem i
    rw [ih (y + 1) _ i H hxw (by omega) hi]
    rcases hxw with hxw | hxw
    · exact draw_rectangle_row_oob W y color xcnt pos_x mem i H (by omega) (by omega) hi
    · subst hxw; rfl

theorem draw_texture_row_oob (W : Nat) (texture : Texture) (y tex_y : Nat) :
    ∀ (cnt x tex_x : Nat) (mem : Mem) (i H : Nat), x + cnt ≤ W → y < H → W * H ≤ i →
      draw_texture_row W texture y tex_y x tex_x cnt mem i = mem i := by
  intro cnt
  induction cnt with
  | zero => intro x tex_x mem i H _ _ _; rfl
  | succ cnt ih =>
    intro x tex_x mem i H hxw hy hi
    show draw_texture_row W texture y tex_y (x + 1) (tex_x + 1) cnt _ i = mem i
    rw [ih (x + 1) (tex_x + 1) _ i H (by omega) hy hi]
    exact store_ne _ _ _ _ (by have := flat_index_lt W H x y (by omega) hy; omega)

theorem draw_texture_rows_oob (W : Nat) (texture : Texture) (pos_x xcnt : Nat) :
    ∀ (cnt y tex_y : Nat) (mem : Mem) (i H : Nat), pos_x + xcnt ≤ W ∨ xcnt = 0 →
      y + cnt ≤ H → W * H ≤ i →
      draw_texture_rows W texture pos_x xcnt y tex_y cnt mem i = mem i := by
  intro cnt
  induction cnt with
  | zero => intro y tex_y mem i H _ _ _; rfl
  | succ cnt ih =>
    intro y tex_y mem i H hxw hyh hi
    show draw_texture_rows W texture pos_x xcnt (y + 1) (tex_y + 1) cnt _ i = mem i
    rw [ih (y + 1) (tex_y + 1) _ i H hxw (by omega) hi]
    rcases hxw with hxw | hxw
    · exact draw_texture_row_oob W texture y tex_y xcnt pos_x 0 mem i H (by omega) (by omega) hi
    · subst hxw; rfl

/-- C6: the background fill, the flat rectangle fill, and the texture blit
iterate only over the destination rectangle clipped to the buffer
(`min (requested extent) (buffer extent)` per axis), so none of them ever
writes outside the `W * H` destination buffer: every flat index at or past
`W * H` keeps its value — including when the requested rectangle starts at
the buffer's last row or column with an oversized extent. -/
theorem draw_ops_in_bounds (W H : Nat) (mem : Mem)
    (x_offset y_offset pos_x pos_y width height color tx ty : Nat) (texture : Texture)
    (i : Nat) (hi : W * H ≤ i) :
    draw_background W H mem x_offset y_offset i = mem i ∧
    draw_rectangle W H mem pos_x pos_y width height color i = mem i ∧
    draw_texture W H mem texture tx ty i = mem i := by
  refine ⟨?_, ?_, ?_⟩
  · exact draw_background_rows_oob W x_offset y_offset H 0 mem i H (by omega) hi
  · unfold draw_rectangle
    rcases le_or_lt (min (pos_y + height) H) pos_y with hcase | hcase
    · rw [show min (pos_y + height) H - pos_y = 0 by omega]; rfl
    · exact draw_rectangle_rows_oob W pos_x (min (pos_x + width) W - pos_x) color
        (min (pos_y + height) H - pos_y) pos_y mem i H (by omega) (by omega) hi
  · unfold draw_texture
    rcases le_or_lt (min (ty + texture.height) H) ty with hcase | hcase
    · rw [show min (ty + texture.height) H - ty = 0 by omega]; rfl
    · exact draw_texture_rows_oob W texture tx (min (tx + texture.width) W - tx)
        (min (ty + texture.height) H - ty) ty 0 mem i H (by omega) (by omega) hi

/-- Witness for C6 at a 1-pixel oversized rectangle starting at the last
row and column of a 2×2 buffer. -/
theorem draw_ops_in_bounds_witness :
    2 * 2 ≤ 4 ∧ draw_rectangle 2 2 (fun _ => 9) 1 1 5 5 0 4 = 9 :=
  ⟨by decide,
    (draw_ops_in_bounds 2 2 (fun _ => 9) 0 0 1 1 5 5 0 0 0 ⟨[], 0, 0⟩ 4 (by decide)).2.1⟩

end Draw

namespace Png

/-- C7: each primitive read on the byte cursor fails with
`FileEnd` (the spec's `UnexpectedEnd`) exactly when fewer bytes remain than
requested — in which case no new cursor is produced, so the caller's cursor
is unchanged — and otherwise succeeds advancing the cursor by exactly the
requested count, never past the data length. -/
theorem cursor_reads_exact (st : Nat) (data : List Nat) (n : Nat) :
    (get_u8 st data = .error .FileEnd ↔ data.length < st + 1) ∧
    (∀ v st2, get_u8 st data = .ok (v, st2) → st2 = st + 1 ∧ st2 ≤ data.length) ∧
    (get_u32 st data = .error .FileEnd ↔ data.length < st + 4) ∧
    (∀ v st2, get_u32 st data = .ok (v, st2) → st2 = st + 4 ∧ st2 ≤ data.length) ∧
    (get_slice st data n = .error .FileEnd ↔ data.length < st + n) ∧
    (∀ v st2, get_slice st data n = .ok (v, st2) → st2 = st + n ∧ st2 ≤ data.length) := by
  refine ⟨⟨?_, ?_⟩, ?_, ⟨?_, ?_⟩, ?_, ⟨?_, ?_⟩, ?_⟩
  · intro h
    simp only [get_u8] at h
    split at h
    next hcond => omega
    next hcond => simp at h
  · intro h
    simp only [get_u8]
    rw [if_pos (show st + 1 > data.length by omega)]
  · intro v st2 h
    simp only [get_u8] at h
    split at h
    next hcond => simp at h
    next hcond => simp only [Except.ok.injEq, Prod.mk.injEq] at h; omega
  · intro h
    simp only [get_u32] at h
    split at h
    next hcond => omega
    next hcond => simp at h
  · intro h
    simp only [get_u32]
    rw [if_pos (show st + 4 > data.length by omega)]
  · intro v st2 h
    simp only [get_u32] at h
    split at h
    next hcond => simp at h
    next hcond => simp only [Except.ok.injEq, Prod.mk.injEq] at h; omega
  · intro h
    simp only [get_slice] at h
    split at h
    next hcond => omega
    next hcond => simp at h
  · intro h
    simp only [get_slice]
    rw [if_pos (show st + n > data.length by omega)]
  · intro v st2 h
    simp only [get_slice] at h
    split at h
    next hcond => simp at h
    next hcond => simp only [Except.ok.injEq, Prod.mk.injEq] at h; omega

/-- Witness for C7 at concrete inputs. -/
theorem cursor_reads_exact_witness :
    (get_u8 2 [7, 7, 7] = .ok (7, 3) → (3 : Nat) = 3 ∧ 3 ≤ 3) ∧
    (get_u32 0 [7, 7, 7] = .error .FileEnd ↔ (3 : Nat) < 4) := by
  refine ⟨fun h => (cursor_reads_exact 2 [7, 7, 7] 0).2.1 7 3 h, ?_⟩
  have h := (cursor_reads_exact 0 [7, 7, 7] 0).2.2.1
  simpa using h

theorem decode_filter_loop_length (f : List Nat → Nat → Nat) :
    ∀ (cnt : Nat) (out : List Nat) (x : Nat),
      (decode_filter_loop f out x cnt).length = out.length + cnt := by
  intro cnt
  induction cnt with
  | zero => intro out x; rfl
  | succ cnt ih =>
    intro out x
    show (decode_filter_loop f (out ++ [f out x]) (x + 1) cnt).length = out.length + (cnt + 1)
    rw [ih]
    simp
    omega

theorem decode_filter_loop_getD_lt (f : List Nat → Nat → Nat) :
    ∀ (cnt : Nat) (out : List Nat) (x i d : Nat), i < out.length →
      (decode_filter_loop f out x cnt).getD i d = out.getD i d := by
  intro cnt
  induction cnt with
  | zero => intro out x i d _; rfl
  | succ cnt ih =>
    intro out x i d hi
    show (decode_filter_loop f (out ++ [f out x]) (x + 1) cnt).getD i d = out.getD i d
    rw [ih _ _ i d (by simp; omega)]
    exact List.getD_append _ _ _ _ hi

theorem decode_filter_loop_split (f : List Nat → Nat → Nat) :
    ∀ (j k : Nat) (out : List Nat) (x : Nat),
      decode_filter_loop f out x (j + k) =
        decode_filter_loop f (decode_filter_loop f out x j) (x + j) k := by
  intro j
  induction j with
  | zero => intro k out x; rw [Nat.zero_add]; rfl
  | succ j ih =>
    intro k out x
    rw [show j + 1 + k = (j + k) + 1 by omega]
    show decode_filter_loop f (out ++ [f out x]) (x + 1) (j + k) = _
    rw [ih k (out ++ [f out x]) (x + 1)]
    rw [show x + (j + 1) = x + 1 + j by omega]
    rfl

theorem decode_filter_loop_getD_new (f : List Nat → Nat → Nat) :
    ∀ (cnt j : Nat) (out : List Nat) (x d : Nat), j < cnt →
      (decode_filter_loop f out x cnt).getD (out.length + j) d =
        f (decode_filter_loop f out x j) (x + j) := by
  intro cnt
  induction cnt with
  | zero => intro j out x d h; omega
  | succ cnt ih =>
    intro j out x d hj
    match j with
    | 0 =>
      show (decode_filter_loop f (out ++ [f out x]) (x + 1) cnt).getD (out.length + 0) d = _
      rw [decode_filter_loop_getD_lt f cnt _ _ _ _ (by simp)]
      rw [List.getD_append_right _ _ _ _ (by omega)]
      simp
      rfl
    | j + 1 =>
      show (decode_filter_loop f (out ++ [f out x]) (x + 1) cnt).getD
          (out.length + (j + 1)) d = _
      rw [show out.length + (j + 1) = (out ++ [f out x]).length + j by simp; omega]
      rw [ih j (out ++ [f out x]) (x + 1) d (by omega)]
      rw [show x + (j + 1) = x + 1 + j by omega]
      rfl

theorem decode_filter_loop_spec (f : List Nat → Nat → Nat) (out : List Nat) (L x : Nat)
    (hx : x < L) :
    (decode_filter_loop f out 0 L).getD (out.length + x) 0 =
      f (decode_filter_loop f out 0 x) x ∧
    ∀ i, i < out.length + x →
      (decode_filter_loop f out 0 L).getD i 0 = (decode_filter_loop f out 0 x).getD i 0 := by
  constructor
  · rw [decode_filter_loop_getD_new f L x out 0 0 hx]
    rw [Nat.zero_add]
  · intro i hi
    rw [show L = x + (L - x) by omega, decode_filter_loop_split]
    exact decode_filter_loop_getD_lt _ _ _ _ _ _
      (by rw [decode_filter_loop_length]; omega)

theorem decode_scanlines_spec (width : Nat) (data : List Nat) :
    ∀ (fuel st : Nat) (raw : List Nat) (row : Nat),
      st ≤ data.length → data.length - st < fuel →
      ((∃ out, decode_scanlines width data fuel st raw row = .ok out) ↔
        ((data.length - st) % (1 + width * 4) = 0 ∧
         ∀ r, st + r * (1 + width * 4) < data.length →
           data.getD (st + r * (1 + width * 4)) 0 ≤ 4)) ∧
      (∀ raw2 rows, decode_scanlines width data fuel st raw row = .ok (raw2, rows) →
        rows = row + (data.length - st) / (1 + width * 4)) ∧
      (∀ r, st + r * (1 + width * 4) < data.length →
        (∀ r2, r2 < r → data.getD (st + r2 * (1 + width * 4)) 0 ≤ 4) →
        4 < data.getD (st + r * (1 + width * 4)) 0 →
        decode_scanlines width data fuel st raw row = .error .InvalidFilterType) ∧
      ((∀ r, st + r * (1 + width * 4) < data.length →
          data.getD (st + r * (1 + width * 4)) 0 ≤ 4) →
        (data.length - st) % (1 + width * 4) ≠ 0 →
        decode_scanlines width data fuel st raw row = .error .FileEnd) := by
  intro fuel
  induction fuel with
  | zero => intro st raw row hst hfuel; omega
  | succ fuel ih =>
    intro st raw row hst hfuel
    by_cases hend : st = data.length
    · have hres : decode_scanlines width data (fuel + 1) st raw row = .ok (raw, row) := by
        simp [decode_scanlines, hend]
      refine ⟨?_, ?_, ?_, ?_⟩
      · rw [hres]
        constructor
        · intro _
          have hz : data.length - st = 0 := by omega
          refine ⟨by rw [hz, Nat.zero_mod], ?_⟩
          intro r hr
          omega
        · intro _
          exact ⟨(raw, row), rfl⟩
      · intro raw2 rows heq
        rw [hres] at heq
        simp only [Except.ok.injEq, Prod.mk.injEq] at heq
        have hz : data.length - st = 0 := by omega
        rw [hz, Nat.zero_div]
        omega
      · intro r hr _ _
        omega
      · intro _ hne
        exfalso
        apply hne
        have hz : data.length - st = 0 := by omega
        rw [hz, Nat.zero_mod]
    · have hstlt : st < data.length := by omega
      have hu8 : get_u8 st data = .ok (data.getD st 0, st + 1) := by
        unfold get_u8
        rw [if_neg (by omega)]
      by_cases hft : 4 < data.getD st 0
      · have hftr : FilterType.try_from (data.getD st 0) = .error .InvalidFilterType := by
          unfold FilterType.try_from
          rw [if_pos hft]
        have hres : decode_scanlines width data (fuel + 1) st raw row =
            .error .InvalidFilterType := by
          simp only [decode_scanlines, if_neg hend, hu8, hftr]
        refine ⟨?_, ?_, ?_, ?_⟩
        · rw [hres]
          constructor
          · rintro ⟨out, hout⟩
            cases hout
          · rintro ⟨hmod, hall⟩
            have h0 := hall 0 (by omega)
            rw [show st + 0 * (1 + width * 4) = st by omega] at h0
            omega
        · intro raw2 rows heq
          rw [hres] at heq
          cases heq
        · intro r hr hprev h4
          exact hres
        · intro hall _
          have h0 := hall 0 (by omega)
          rw [show st + 0 * (1 + width * 4) = st by omega] at h0
          omega
      · obtain ⟨ft, hftok⟩ : ∃ ft, FilterType.try_from (data.getD st 0) = .ok ft := by
          unfold FilterType.try_from
          rw [if_neg (by omega)]
          split_ifs <;> exact ⟨_, rfl⟩
        by_cases hsl : st + 1 + width * 4 ≤ data.length
        · have hslice : get_slice (st + 1) data (width * 4) =
              .ok ((data.drop (st + 1)).take (width * 4), st + 1 + width * 4) := by
            unfold get_slice
            rw [if_neg (by omega)]
          have hres : decode_scanlines width data (fuel + 1) st raw row =
              decode_scanlines width data fuel (st + 1 + width * 4)
                (decode_filter raw ((data.drop (st + 1)).take (width * 4)) ft row)
                (row + 1) := by
            simp only [decode_scanlines, if_neg hend, hu8, hftok, hslice]
          have hL : 0 < 1 + width * 4 := by omega
          have hlen : data.length - st =
              (data.length - (st + 1 + width * 4)) + (1 + width * 4) := by omega
          have hmod2 : (data.length - st) % (1 + width * 4) =
              (data.length - (st + 1 + width * 4)) % (1 + width * 4) := by
            rw [hlen, Nat.add_mod_right]
          have hdiv2 : (data.length - st) / (1 + width * 4) =
              (data.length - (st + 1 + width * 4)) / (1 + width * 4) + 1 := by
            rw [hlen, Nat.add_div_right _ hL]
          have hshift : ∀ r : Nat, st + (r + 1) * (1 + width * 4) =
              (st + 1 + width * 4) + r * (1 + width * 4) := by
            intro r
            ring
          obtain ⟨ih1, ih2, ih3, ih4⟩ :=
            ih (st + 1 + width * 4)
              (decode_filter raw ((data.drop (st + 1)).take (width * 4)) ft row)
              (row + 1) (by omega) (by omega)
          have hle4 : data.getD st 0 ≤ 4 := by omega
          refine ⟨?_, ?_, ?_, ?_⟩
          · rw [hres, ih1]
            constructor
            · rintro ⟨hmod, hall⟩
              refine ⟨by omega, ?_⟩
              intro r hr
              match r with
              | 0 =>
                have e0 : st + 0 * (1 + width * 4) = st := by omega
                rw [e0]
                exact hle4
              | r + 1 =>
                rw [hshift r] at hr ⊢
                exact hall r hr
            · rintro ⟨hmod, hall⟩
              refine ⟨by omega, ?_⟩
              intro r hr
              rw [← hshift r] at hr ⊢
              exact hall (r + 1) hr
          · intro raw2 rows heq
            rw [hres] at heq
            have := ih2 raw2 rows heq
            omega
          · intro r hr hprev h4
            rw [hres]
            match r with
            | 0 =>
              exfalso
              have e0 : st + 0 * (1 + width * 4) = st := by omega
              rw [e0] at h4
              omega
            | r + 1 =>
              rw [hshift r] at hr h4
              apply ih3 r hr ?_ h4
              intro r2 hr2
              rw [← hshift r2]
              exact hprev (r2 + 1) (by omega)
          · intro hall hne
            rw [hres]
            apply ih4
            · intro r hr
              rw [← hshift r] at hr ⊢
              exact hall (r + 1) hr
            · omega
        · have hslice : get_slice (st + 1) data (width * 4) = .error .FileEnd := by
            unfold get_slice
            rw [if_pos (by omega)]
          have hres : decode_scanlines width data (fuel + 1) st raw row =
              .error .FileEnd := by
            simp only [decode_scanlines, if_neg hend, hu8, hftok, hslice]
          have hbig : ∀ r : Nat, 1 + width * 4 ≤ (r + 1) * (1 + width * 4) := by
            intro r
            have := Nat.mul_le_mul_right (1 + width * 4) (show 1 ≤ r + 1 by omega)
            omega
          refine ⟨?_, ?_, ?_, ?_⟩
          · rw [hres]
            constructor
            · rintro ⟨out, hout⟩
              cases hout
            · rintro ⟨hmod, _⟩
              rw [Nat.mod_eq_of_lt (by omega)] at hmod
              omega
          · intro raw2 rows heq
            rw [hres] at heq
            cases heq
          · intro r hr hprev h4
            exfalso
            match r with
            | 0 =>
              have e0 : st + 0 * (1 + width * 4) = st := by omega
              rw [e0] at h4
              omega
            | r + 1 =>
              have := hbig r
              omega
          · intro _ _
            exact hres

/-- C9 (amended): the scanline loop never consults the header's declared
height (its embedding `decode_image_data` takes only the width and the
decompressed stream): decoding succeeds iff the stream length is an exact
multiple of `1 + 4*width` and every row's leading filter byte is at most 4,
and on success the number of rows decoded is `length / (1 + 4*width)`.
On failure, the filter-byte check comes first: the first offending row
yields `InvalidFilterType` if its filter byte (which is present, since the
row starts before the end) exceeds 4 — even if the stream also ends
mid-row — and a stream whose rows all carry valid filter bytes but whose
length is not a multiple of `1 + 4*width` yields `FileEnd` (the spec's
`UnexpectedEnd`). -/
theorem scanline_loop_spec (width : Nat) (data : List Nat) :
    ((∃ out, decode_image_data width data = .ok out) ↔
      (data.length % (1 + width * 4) = 0 ∧
       ∀ r, r * (1 + width * 4) < data.length →
         data.getD (r * (1 + width * 4)) 0 ≤ 4)) ∧
    (∀ raw rows, decode_image_data width data = .ok (raw, rows) →
      rows = data.length / (1 + width * 4)) ∧
    (∀ r, r * (1 + width * 4) < data.length →
      (∀ r2, r2 < r → data.getD (r2 * (1 + width * 4)) 0 ≤ 4) →
      4 < data.getD (r * (1 + width * 4)) 0 →
      decode_image_data width data = .error .InvalidFilterType) ∧
    ((∀ r, r * (1 + width * 4) < data.length →
        data.getD (r * (1 + width * 4)) 0 ≤ 4) →
      data.length % (1 + width * 4) ≠ 0 →
      decode_image_data width data = .error .FileEnd) := by
  unfold decode_image_data
  obtain ⟨s1, s2, s3, s4⟩ :=
    decode_scanlines_spec width data (data.length + 1) 0 [] 0 (by omega) (by omega)
  simp only [Nat.sub_zero, Nat.zero_add] at s1 s2 s3 s4
  refine ⟨s1, ?_, s3, s4⟩
  intro raw rows h
  have := s2 raw rows h
  omega

/-- Witness for C9's amended theorem: a valid single-row width-1 stream
decodes to exactly one row. -/
theorem scanline_loop_spec_witness :
    decode_image_data 1 [0, 1, 2, 3, 4] = .ok ([1, 2, 3, 4], 1) ∧
      (1 : Nat) = ([0, 1, 2, 3, 4] : List Nat).length / (1 + 1 * 4) :=
  ⟨rfl, (scanline_loop_spec 1 [0, 1, 2, 3, 4]).2.1 [1, 2, 3, 4] 1 rfl⟩

/-- C9 counterexample: the one-byte decompressed stream `[5]` for a width-1
image ends mid-row (its length is not a multiple of `1 + 4*1 = 5`), yet the
scanline loop does not fail with `FileEnd` (the spec's `UnexpectedEnd`): it
checks the filter byte first and fails with `InvalidFilterType`. -/
theorem scanline_error_precedence_cex :
    decode_image_data 1 [5] = .error .InvalidFilterType ∧
    decode_image_data 1 [5] ≠ .error .FileEnd ∧
    ([5] : List Nat).length % (1 + 1 * 4) ≠ 0 := by
  refine ⟨rfl, ?_, by decide⟩
  intro h
  rw [show decode_image_data 1 [5] = .error .InvalidFilterType from rfl] at h
  injection h with h2
  cases h2

/-- C1 counterexample: decoding a 2-pixel-wide image whose second row uses
the Paeth filter. At row 1, byte 4 the neighbours are `a = 1`, `b = 2`,
`c = 0` and the filtered byte is `0`; the code reconstructs
`0 + paeth(1,2,0) = 2` (the code's Paeth picks among `a`, `b`, `c`), while
the spec's literal predictor — third candidate `(a+b−c)` — yields
`0 + 3 = 3`. -/
theorem paeth_spec_predictor_cex :
    decode_image_data 2 [0, 0, 0, 0, 0, 2, 0, 0, 0, 4, 1, 0, 0, 0, 0, 0, 0, 0] =
      .ok ([0, 0, 0, 0, 2, 0, 0, 0, 1, 0, 0, 0, 2, 0, 0, 0], 2) ∧
    ([0, 0, 0, 0, 2, 0, 0, 0, 1, 0, 0, 0, 2, 0, 0, 0] : List Nat).getD 12 0 ≠
      (([0, 0, 0, 0, 0, 2, 0, 0, 0, 4, 1, 0, 0, 0, 0, 0, 0, 0] : List Nat).getD 14 0 +
        (spec_paeth_predictor 1 2 0).toNat) % 256 := by
  refine ⟨rfl, by decide⟩

/-- C5: for a scanline decoded with filter type 3 (Average), each
reconstructed byte equals `filtered + ⌊(a + b) / 2⌋` reduced modulo 256,
with exact integer floor division, where `a` is the already-reconstructed
byte 4 positions to the left in the same row (0 when the column index is
below 4) and `b` is the reconstructed byte directly above (0 in row 0). The
hypothesis states that `output_img` holds exactly the `y_idx` previous
rows, as in the decode loop. -/
theorem average_reconstruction (output_img encoded_line : List Nat) (y_idx : Nat)
    (h : output_img.length = y_idx * encoded_line.length) :
    (decode_filter output_img encoded_line .Average y_idx).length =
      output_img.length + encoded_line.length ∧
    ∀ x_idx, x_idx < encoded_line.length →
      (decode_filter output_img encoded_line .Average y_idx).getD
          (y_idx * encoded_line.length + x_idx) 0 =
        (encoded_line.getD x_idx 0 +
          ((if 3 < x_idx then
              (decode_filter output_img encoded_line .Average y_idx).getD
                (y_idx * encoded_line.length + (x_idx - 4)) 0
            else 0) +
           (if 0 < y_idx then
              (decode_filter output_img encoded_line .Average y_idx).getD
                ((y_idx - 1) * encoded_line.length + x_idx) 0
            else 0)) / 2) % 256 := by
  have dfa : decode_filter output_img encoded_line .Average y_idx =
      decode_filter_loop (average_byte encoded_line y_idx) output_img 0
        encoded_line.length := rfl
  constructor
  · rw [dfa, decode_filter_loop_length]
  intro x hx
  obtain ⟨lhs_eq, hpre⟩ :=
    decode_filter_loop_spec (average_byte encoded_line y_idx) output_img
      encoded_line.length x hx
  rw [dfa]
  rw [show y_idx * encoded_line.length + x = output_img.length + x by rw [h]]
  rw [lhs_eq]
  show (encoded_line.getD x 0 +
      ((if 3 < x then
          (decode_filter_loop (average_byte encoded_line y_idx) output_img 0 x).getD
            (y_idx * encoded_line.length + (x - 4)) 0
        else 0) +
       (if 0 < y_idx then
          (decode_filter_loop (average_byte encoded_line y_idx) output_img 0 x).getD
            ((y_idx - 1) * encoded_line.length + x) 0
        else 0)) / 2) % 256 = _
  have hb : 0 < y_idx →
      (y_idx - 1) * encoded_line.length + x < output_img.length + x := by
    intro h0
    have e : (y_idx - 1) * encoded_line.length + encoded_line.length =
        y_idx * encoded_line.length := by
      rcases y_idx with _ | y
      · omega
      · rw [Nat.succ_sub_one, Nat.succ_mul]
    rw [← h] at e
    omega
  by_cases h3 : 3 < x
  · by_cases h0 : 0 < y_idx
    · rw [if_pos h3, if_pos h3, if_pos h0, if_pos h0]
      rw [hpre (y_idx * encoded_line.length + (x - 4)) (by rw [← h] at *; omega)]
      rw [hpre ((y_idx - 1) * encoded_line.length + x) (hb h0)]
    · rw [if_pos h3, if_pos h3, if_neg h0, if_neg h0]
      rw [hpre (y_idx * encoded_line.length + (x - 4)) (by rw [← h] at *; omega)]
  · by_cases h0 : 0 < y_idx
    · rw [if_neg h3, if_neg h3, if_pos h0, if_pos h0]
      rw [hpre ((y_idx - 1) * encoded_line.length + x) (hb h0)]
    · rw [if_neg h3, if_neg h3, if_neg h0, if_neg h0]

/-- Witness for C5 decoding one 2-byte row with no previous rows. -/
theorem average_reconstruction_witness :
    ([] : List Nat).length = 0 * ([10, 4] : List Nat).length ∧
      (decode_filter [] [10, 4] .Average 0).length =
        ([] : List Nat).length + ([10, 4] : List Nat).length :=
  ⟨rfl, (average_reconstruction [] [10, 4] 0 rfl).1⟩

/-- C1 (amended): for a scanline decoded with filter type 4 (Paeth), each
reconstructed byte equals `filtered + paeth a b c` modulo 256, where the
code's Paeth predictor picks whichever of the three neighbours `a`, `b`,
`c` (not `a`, `b`, `a+b-c` as the spec words it) has the smallest absolute
deviation from `p = a + b - c`, preferring `a` on ties, then `b`; `a` is
the already-reconstructed byte 4 positions to the left (0 when the column
index is below 4), `b` the byte directly above (0 in row 0), `c` the byte
above-and-4-left (0 when either is missing). -/
theorem paeth_reconstruction (output_img encoded_line : List Nat) (y_idx : Nat)
    (h : output_img.length = y_idx * encoded_line.length) :
    (decode_filter output_img encoded_line .Paeth y_idx).length =
      output_img.length + encoded_line.length ∧
    ∀ x_idx, x_idx < encoded_line.length →
      (decode_filter output_img encoded_line .Paeth y_idx).getD
          (y_idx * encoded_line.length + x_idx) 0 =
        (encoded_line.getD x_idx 0 +
          paeth
            (if 3 < x_idx then
              (decode_filter output_img encoded_line .Paeth y_idx).getD
                (y_idx * encoded_line.length + (x_idx - 4)) 0
             else 0)
            (if 0 < y_idx then
              (decode_filter output_img encoded_line .Paeth y_idx).getD
                ((y_idx - 1) * encoded_line.length + x_idx) 0
             else 0)
            (if 3 < x_idx ∧ 0 < y_idx then
              (decode_filter output_img encoded_line .Paeth y_idx).getD
                ((y_idx - 1) * encoded_line.length + (x_idx - 4)) 0
             else 0)) % 256 := by
  have dfp : decode_filter output_img encoded_line .Paeth y_idx =
      decode_filter_loop (paeth_byte encoded_line y_idx) output_img 0
        encoded_line.length := rfl
  constructor
  · rw [dfp, decode_filter_loop_length]
  intro x hx
  obtain ⟨lhs_eq, hpre⟩ :=
    decode_filter_loop_spec (paeth_byte encoded_line y_idx) output_img
      encoded_line.length x hx
  rw [dfp]
  rw [show y_idx * encoded_line.length + x = output_img.length + x by rw [h]]
  rw [lhs_eq]
  show (encoded_line.getD x 0 +
      paeth
        (if 3 < x then
          (decode_filter_loop (paeth_byte encoded_line y_idx) output_img 0 x).getD
            (y_idx * encoded_line.length + (x - 4)) 0
         else 0)
        (if 0 < y_idx then
          (decode_filter_loop (paeth_byte encoded_line y_idx) output_img 0 x).getD
            ((y_idx - 1) * encoded_line.length + x) 0
         else 0)
        (if 3 < x ∧ 0 < y_idx then
          (decode_filter_loop (paeth_byte encoded_line y_idx) output_img 0 x).getD
            ((y_idx - 1) * encoded_line.length + (x - 4)) 0
         else 0)) % 256 = _
  have hrow : 0 < y_idx →
      (y_idx - 1) * encoded_line.length + encoded_line.length =
        output_img.length := by
    intro h0
    rw [h]
    rcases y_idx with _ | y
    · omega
    · rw [Nat.succ_sub_one, Nat.succ_mul]
  by_cases h3 : 3 < x
  · by_cases h0 : 0 < y_idx
    · rw [if_pos h3, if_pos h3, if_pos h0, if_pos h0,
        if_pos (And.intro h3 h0), if_pos (And.intro h3 h0)]
      rw [hpre (y_idx * encoded_line.length + (x - 4)) (by rw [← h] at *; omega)]
      rw [hpre ((y_idx - 1) * encoded_line.length + x) (by have := hrow h0; omega)]
      rw [hpre ((y_idx - 1) * encoded_line.length + (x - 4)) (by have := hrow h0; omega)]
    · rw [if_pos h3, if_pos h3, if_neg h0, if_neg h0,
        if_neg (by intro hc; exact h0 hc.2), if_neg (by intro hc; exact h0 hc.2)]
      rw [hpre (y_idx * encoded_line.length + (x - 4)) (by rw [← h] at *; omega)]
  · by_cases h0 : 0 < y_idx
    · rw [if_neg h3, if_neg h3, if_pos h0, if_pos h0,
        if_neg (by intro hc; exact h3 hc.1), if_neg (by intro hc; exact h3 hc.1)]
      rw [hpre ((y_idx - 1) * encoded_line.length + x) (by have := hrow h0; omega)]
    · rw [if_neg h3, if_neg h3, if_neg h0, if_neg h0,
        if_neg (by intro hc; exact h0 hc.2), if_neg (by intro hc; exact h0 hc.2)]

/-- Witness for C1's amended theorem decoding one 2-byte row with no
previous rows. -/
theorem paeth_reconstruction_witness :
    ([] : List Nat).length = 0 * ([10, 4] : List Nat).length ∧
      (decode_filter [] [10, 4] .Paeth 0).length =
        ([] : List Nat).length + ([10, 4] : List Nat).length :=
  ⟨rfl, (paeth_reconstruction [] [10, 4] 0 rfl).1⟩

/-- C8: whichever kind of chunk was parsed (IHDR, IEND, IDAT or an
unrecognized type), once `parse_block` has read the length, the type tag,
the kind-specific payload and the stored checksum, a mismatch between the
recomputed `crc32 (chunk_type ++ chunk_data)` and the stored checksum makes
it fail with `ChecksumFailed`; moreover the concrete PNG file whose last
chunk's (IEND's) checksum has one flipped bit fails the whole loader with
`ChecksumFailed` for every possible decompressor, so it never decodes. -/
theorem checksum_mismatch_fails :
    (∀ (st : Nat) (data : List Nat) (len st1 : Nat) (chunk_type : List Nat) (st2 : Nat)
       (chunk_data : List Nat) (block : PngBlockKind) (st3 checksum st4 : Nat),
      get_u32 st data = .ok (len, st1) →
      get_slice st1 data 4 = .ok (chunk_type, st2) →
      parse_chunk_kind chunk_type st2 data len = .ok ((chunk_data, block), st3) →
      get_u32 st3 data = .ok (checksum, st4) →
      crc32 (chunk_type ++ chunk_data) ≠ checksum →
      parse_block st data = .error .ChecksumFailed) ∧
    ∀ inflate, load_from_data inflate flipped_checksum_file = .error .ChecksumFailed := by
  constructor
  · intro st data len st1 chunk_type st2 chunk_data block st3 checksum st4 h1 h2 h3 h4 h5
    simp only [parse_block, bind, Except.bind, h1, h2, h3, h4]
    rw [if_pos h5]
  · intro inflate
    rfl

/-- Witness for C8's general part at a concrete unrecognized chunk whose
stored checksum (1) differs from the real CRC-32 of its tag. -/
theorem checksum_mismatch_fails_witness :
    parse_block 0 [0, 0, 0, 0, 88, 88, 88, 88, 0, 0, 0, 1] = .error .ChecksumFailed :=
  checksum_mismatch_fails.1 0 [0, 0, 0, 0, 88, 88, 88, 88, 0, 0, 0, 1]
    0 4 [88, 88, 88, 88] 8 [] .Unknown 8 1 12 rfl rfl rfl rfl (by decide)

end Png

namespace Draw

/-- C2 counterexample: dithering the single-pixel region `(0,0,1,1)` of a
2×1 buffer whose pixel 0 is `0xff000010` (alpha byte set) changes pixel 1 —
a pixel outside the requested region (error diffusion to the right
neighbour is bounded by the buffer, not by the region). -/
theorem dither_outside_region_cex :
    dither 2 1 (fun i => if i = 0 then 0xff000010 else 0) 0 0 1 1 1 ≠
      (fun i => if i = 0 then (0xff000010 : Nat) else 0) 1 := by
  decide

/-- C3 counterexample: for the processed pixel `0xff000010` (nearest palette
color `0x0000ff`), the error the ditherer actually diffuses to the right
neighbour is derived from the whole-`u32` saturating subtraction
`0xff000010 - 0xff = 0xfeffff11`, not from the per-channel subtraction
(which is `0` here); the neighbour's resulting value differs from the
per-channel prediction. -/
theorem quant_error_per_channel_cex :
    (find_closest_palette_color 0xff000010 = 0x0000ff ∧
      per_channel_quant_error 0xff000010 0x0000ff = 0) ∧
    dither 2 1 (fun i => if i = 0 then 0xff000010 else 0) 0 0 1 1 1 ≠
      ((fun i => if i = 0 then (0xff000010 : Nat) else 0) 1 +
        per_channel_quant_error 0xff000010
          (find_closest_palette_color 0xff000010) * 7 % U32 / 16) % U32 := by
  refine ⟨⟨by decide, by decide⟩, by decide⟩

/-- C4 counterexample: blitting a fully transparent (alpha = 0) texture
pixel onto a destination pixel whose stored value is `0x01000000` does not
leave the stored 32-bit value unchanged: the blit writes back only the
R, G, B channels, zeroing the top byte. -/
theorem texture_blit_transparent_cex :
    draw_texture 1 1 (fun _ => 0x01000000) ⟨[0], 1, 1⟩ 0 0 0 ≠ 0x01000000 := by
  have e1 : draw_texture 1 1 (fun _ => 0x01000000) ⟨[0], 1, 1⟩ 0 0 0 =
      blend_pixel 0x01000000 0 := rfl
  rw [e1, blend_alpha_zero 0x01000000 0 rfl]
  decide

/-- C4 (amended): for every destination and texture pixel, a texture alpha
byte of 0 leaves the destination's R, G, B channels (its low 24 bits)
unchanged, and an alpha byte of 255 replaces them exactly with the
texture's R, G, B channels; in both cases the stored top byte becomes 0
(the texture's alpha is not copied into the destination). The `f32`
arithmetic of `draw_texture` is exact at these two alpha values. -/
theorem texture_blit_alpha_extremes (pixel bitmap_pixel : Nat) :
    ((bitmap_pixel >>> 24) &&& 0xFF = 0 →
      blend_pixel pixel bitmap_pixel = pixel % 16777216) ∧
    ((bitmap_pixel >>> 24) &&& 0xFF = 255 →
      blend_pixel pixel bitmap_pixel = bitmap_pixel % 16777216) :=
  ⟨blend_alpha_zero pixel bitmap_pixel, blend_alpha_full pixel bitmap_pixel⟩

/-- Witness for C4's amended theorem at concrete opaque and transparent
texture pixels. -/
theorem texture_blit_alpha_extremes_witness :
    ((0xFF654321 : Nat) >>> 24) &&& 0xFF = 255 ∧
      blend_pixel 0x00123456 0xFF654321 = 0xFF654321 % 16777216 ∧
    (((0x00654321 : Nat) >>> 24) &&& 0xFF = 0 ∧
      blend_pixel 0x00123456 0x00654321 = 0x00123456 % 16777216) :=
  ⟨by decide, (texture_blit_alpha_extremes 0x00123456 0xFF654321).2 (by decide),
    by decide, (texture_blit_alpha_extremes 0x00123456 0x00654321).1 (by decide)⟩

end Draw

end FileExplorer
